import Mathlib

/-
Verification of the temporal gesture detection pipeline of the
hand-gesture-dashboard repository (src GestureRecognitionService).
The pipeline is embedded shallowly: coordinates and confidence scores are
rationals, JavaScript arrays are lists, the per-instance mutable fields are a
`TState` record threaded through the per-frame step.
-/

namespace GestureService

/-- A MediaPipe hand landmark: normalized coordinates, with `z` optional. -/
structure Landmark where
  x : ℚ
  y : ℚ
  z : Option ℚ := none
  deriving DecidableEq, Repr

/-- A single-frame recognized gesture: category label plus confidence score. -/
structure RecognizedGesture where
  categoryName : String
  score : ℚ
  deriving DecidableEq, Repr

/-- A hand's landmark array; a `none` (or missing) index models an absent
landmark, matching `landmarks[index] || null` in the source. -/
abbrev HandLandmarks := List (Option Landmark)

/-- One entry of the temporal detection buffer (source `BufferEntry`). -/
structure BufferEntry where
  wrist : Option Landmark
  palmCenter : Option Landmark
  thumbTip : Option Landmark
  indexTip : Option Landmark
  topGesture : Option RecognizedGesture
  timestamp : ℚ
  deriving DecidableEq, Repr

/-- Output element of the sliding majority filter. -/
structure SmoothedLabel where
  label : Option String
  confidence : ℚ
  deriving DecidableEq, Repr

/-- A maximal run of equal smoothed labels; `start` and `«end»` are inclusive
indices into the buffer snapshot. -/
structure Block where
  gesture : Option String
  start : Int
  «end» : Int
  deriving DecidableEq, Repr

/-- The tag of a temporal gesture event. -/
inductive GestureKind where
  | swipe_left
  | swipe_right
  | click
  | point
  deriving DecidableEq, Repr

/-- A temporal gesture event (source `TemporalGestureResult`): swipe and click
carry no payload, point carries the cursor position. -/
inductive TemporalGestureResult where
  | swipe_left
  | swipe_right
  | click
  | point (x : ℚ) (y : ℚ)
  deriving DecidableEq, Repr

/-- The tag of an event, used for the `gestureType !== 'point'` test. -/
def TemporalGestureResult.kind : TemporalGestureResult → GestureKind
  | .swipe_left => .swipe_left
  | .swipe_right => .swipe_right
  | .click => .click
  | .point _ _ => .point

/-- The slice of a frame's data consumed by temporal detection. -/
structure GestureFrameData where
  landmarks : List HandLandmarks
  topGesture : Option RecognizedGesture
  timestamp : ℚ
  deriving DecidableEq, Repr

/-- The mutable fields of the service instance that temporal detection reads
and writes, threaded explicitly. -/
structure TState where
  buffer : List BufferEntry
  bufferSize : Nat
  emaAlpha : ℚ
  majorityWindowSize : Nat
  maxGapSize : Int
  smoothedWrist : Option Landmark
  smoothedPalmCenter : Option Landmark
  smoothedThumbTip : Option Landmark
  smoothedIndexTip : Option Landmark
  lastDetectedGesture : Option GestureKind
  deriving DecidableEq, Repr

/-- The option record accepted by `updateTemporalGestureOptions`. -/
structure TemporalGestureOptions where
  bufferSize : Option Nat := none
  emaAlpha : Option ℚ := none
  majorityWindowSize : Option Nat := none
  maxGapSize : Option Int := none
  deriving DecidableEq, Repr

/-- `updateTemporalGestureOptions` (source lines 141-159): each provided option
overwrites the corresponding field; nothing else changes (in particular the
buffer itself is untouched). -/
def updateTemporalGestureOptions (options : TemporalGestureOptions) (s : TState) : TState :=
  { s with
    bufferSize := options.bufferSize.getD s.bufferSize,
    emaAlpha := options.emaAlpha.getD s.emaAlpha,
    majorityWindowSize := options.majorityWindowSize.getD s.majorityWindowSize,
    maxGapSize := options.maxGapSize.getD s.maxGapSize }

/-- `applyEMA` (source lines 285-297): null current gives null; null previous
passes current through; otherwise blend per axis, the z axis only when both
sides define it (else current's z passes through). -/
def applyEMA (emaAlpha : ℚ) (current previous : Option Landmark) : Option Landmark :=
  match current with
  | none => none
  | some c =>
    match previous with
    | none => some c
    | some p =>
      some
        { x := emaAlpha * c.x + (1 - emaAlpha) * p.x,
          y := emaAlpha * c.y + (1 - emaAlpha) * p.y,
          z :=
            match c.z, p.z with
            | some cz, some pz => some (emaAlpha * cz + (1 - emaAlpha) * pz)
            | _, _ => c.z }

/-- `landmarks[index] || null` inside `computeReferencePoints`. -/
def getPoint (landmarks : HandLandmarks) (index : Nat) : Option Landmark :=
  (landmarks.get? index).bind id

/-- The `bases` local of `computeReferencePoints`: the present landmarks
among indices 0, 5, 9, 13, 17 (`.filter((p) => p !== null)`). -/
def palmBases (landmarks : HandLandmarks) : List Landmark :=
  ([getPoint landmarks 0, getPoint landmarks 5, getPoint landmarks 9,
    getPoint landmarks 13, getPoint landmarks 17]).filterMap id

/-- `computeReferencePoints` (source lines 302-343): the wrist is landmark 0;
the palm center is computed only when the wrist is present, as the average of
the present landmarks among indices 0, 5, 9, 13, 17 (the z sum is taken over
`p.z || 0` and emitted only when it is truthy, i.e. nonzero); thumb tip is
landmark 4 and index tip landmark 8. -/
def computeReferencePoints (landmarks : HandLandmarks) : BufferEntry :=
  let wrist := getPoint landmarks 0
  let palmCenter : Option Landmark :=
    match wrist with
    | some _ =>
      let bases := palmBases landmarks
      if 0 < bases.length then
        let sum := bases.foldl
          (fun acc p => (acc.1 + p.x, acc.2.1 + p.y, acc.2.2 + p.z.getD 0))
          ((0 : ℚ), (0 : ℚ), (0 : ℚ))
        some
          { x := sum.1 / (bases.length : ℚ), y := sum.2.1 / (bases.length : ℚ),
            z := if sum.2.2 ≠ 0 then some (sum.2.2 / (bases.length : ℚ)) else none }
      else none
    | none => none
  { wrist := wrist, palmCenter := palmCenter, thumbTip := getPoint landmarks 4,
    indexTip := getPoint landmarks 8, topGesture := none, timestamp := 0 }

/-- The static label of a buffer entry: `topGesture?.categoryName || 'None'`
(an empty category name is falsy in JavaScript, hence also mapped to "None"). -/
def labelOfEntry (e : BufferEntry) : String :=
  match e.topGesture with
  | some g => if g.categoryName = "" then "None" else g.categoryName
  | none => "None"

/-- The confidence of a buffer entry: `topGesture?.score || 0`. -/
def scoreOfEntry (e : BufferEntry) : ℚ :=
  match e.topGesture with
  | some g => g.score
  | none => 0

/-- Insertion-ordered tally update, modelling `labelCounts.set(label,
(labelCounts.get(label) || 0) + 1)` on a JavaScript `Map` (which iterates in
insertion order). -/
def bumpCount : List (String × Nat) → String → List (String × Nat)
  | [], l => [(l, 1)]
  | (k, c) :: rest, l =>
    if k = l then (k, c + 1) :: rest else (k, c) :: bumpCount rest l

/-- Insertion-ordered score accumulation, modelling
`labelScores.get(label)!.push(score)` on a JavaScript `Map`. -/
def addScore : List (String × List ℚ) → String × ℚ → List (String × List ℚ)
  | [], (l, s) => [(l, [s])]
  | (k, ss) :: rest, (l, s) =>
    if k = l then (k, ss ++ [s]) :: rest else (k, ss) :: addScore rest (l, s)

/-- `labelCounts.get(l) || 0`. -/
def lookupCount (m : List (String × Nat)) (l : String) : Nat :=
  ((m.find? (fun p => p.1 == l)).map (fun p => p.2)).getD 0

/-- `labelScores.get(l) || []`. -/
def lookupScores (m : List (String × List ℚ)) (l : String) : List ℚ :=
  ((m.find? (fun p => p.1 == l)).map (fun p => p.2)).getD []

/-- `Math.max(0, i - halfWindow)` (natural subtraction truncates at 0). -/
def windowStart (mws i : Nat) : Nat := i - mws / 2

/-- `Math.min(len - 1, i + halfWindow)`. -/
def windowEnd (mws len i : Nat) : Nat := min (len - 1) (i + mws / 2)

/-- The buffer entries examined by the window at index `i`, i.e. positions
`windowStart .. windowEnd` inclusive. -/
def windowEntries (mws : Nat) (buffer : List BufferEntry) (i : Nat) : List BufferEntry :=
  (buffer.drop (windowStart mws i)).take (windowEnd mws buffer.length i + 1 - windowStart mws i)

/-- Accumulator of the majority scan over the tally. -/
structure MajAcc where
  majorityLabel : Option String
  maxCount : Nat
  tieLabels : List String
  deriving DecidableEq, Repr

/-- One step of the majority scan (source lines 386-395): a strictly larger
count replaces the leader and resets the tie list, an equal count joins it. -/
def majStep (acc : MajAcc) (p : String × Nat) : MajAcc :=
  if acc.maxCount < p.2 then ⟨some p.1, p.2, [p.1]⟩
  else if p.2 = acc.maxCount then ⟨acc.majorityLabel, acc.maxCount, acc.tieLabels ++ [p.1]⟩
  else acc

/-- `scores.reduce((a, b) => a + b, 0) / scores.length`. -/
def avgOf (ss : List ℚ) : ℚ := ss.sum / (ss.length : ℚ)

/-- One step of the best-average scan among tied non-"None" labels (source
lines 402-412): the candidate average `avgOf (labelScores.get(l) || [])`
strictly above the best so far replaces it. -/
def pickStep (labelScores : List (String × List ℚ)) (acc : String × ℚ) (l : String) :
    String × ℚ :=
  if acc.2 < avgOf (lookupScores labelScores l) then
    (l, avgOf (lookupScores labelScores l))
  else acc

/-- Tie resolution (source lines 396-418): with two or more tied labels,
prefer the non-"None" tied label with the highest average score (scanning with
`pickStep` from initial best `(first, 0)`); if every tied label is "None" take
the first; with no tie keep the majority label. -/
def resolveTie (tieLabels : List String) (labelScores : List (String × List ℚ))
    (majorityLabel : Option String) : Option String :=
  if 1 < tieLabels.length then
    let nonNoneLabels := tieLabels.filter (fun l => !(l == "None"))
    match nonNoneLabels with
    | [] => tieLabels.head?
    | c :: _ => some ((nonNoneLabels.foldl (pickStep labelScores) (c, 0)).1)
  else majorityLabel

/-- Normalization used throughout the source: the string "None" and null are
the same absence value (`gesture === 'None' ? null : gesture`). -/
def normG (gesture : Option String) : Option String :=
  if gesture = some "None" then none else gesture

/-- The label tally of the window at index `i` (source lines 367-379). -/
def labelCountsAt (mws : Nat) (buffer : List BufferEntry) (i : Nat) : List (String × Nat) :=
  ((windowEntries mws buffer i).map labelOfEntry).foldl bumpCount []

/-- The per-label score lists of the window at index `i`; the source builds
this map in the same loop as the tally. -/
def labelScoresAt (mws : Nat) (buffer : List BufferEntry) (i : Nat) : List (String × List ℚ) :=
  ((windowEntries mws buffer i).map (fun e => (labelOfEntry e, scoreOfEntry e))).foldl
    addScore []

/-- The majority scan result at index `i` (initial state: no leader, count 0,
no ties). -/
def majAccAt (mws : Nat) (buffer : List BufferEntry) (i : Nat) : MajAcc :=
  (labelCountsAt mws buffer i).foldl majStep ⟨none, 0, []⟩

/-- The majority label at index `i` after tie resolution. -/
def resolvedLabelAt (mws : Nat) (buffer : List BufferEntry) (i : Nat) : Option String :=
  resolveTie (majAccAt mws buffer i).tieLabels (labelScoresAt mws buffer i)
    (majAccAt mws buffer i).majorityLabel

/-- The filter output at index `i` (source lines 420-426): the resolved label
normalized, and `maxCount / windowSize` where `windowSize = end - start + 1`
is the clipped window length. -/
def majorityAt (mws : Nat) (buffer : List BufferEntry) (i : Nat) : SmoothedLabel :=
  { label := normG (resolvedLabelAt mws buffer i),
    confidence := ((majAccAt mws buffer i).maxCount : ℚ) /
      ((windowEnd mws buffer.length i + 1 - windowStart mws i : Nat) : ℚ) }

/-- `applySlidingMajorityFilter` (source lines 349-430): one smoothed label
per buffer entry; empty buffer gives the empty list. -/
def applySlidingMajorityFilter (mws : Nat) (buffer : List BufferEntry) : List SmoothedLabel :=
  if buffer.length = 0 then []
  else (List.range buffer.length).map (majorityAt mws buffer)

/-- The loop of `compressSmoothedLabelsToBlocks` (source lines 445-470):
`cur`/`start` track the open run, `i` is the index of the head of the
remaining list; a label change closes the run at `i - 1`, exhaustion closes
it at the final index. -/
def compressGo (cur : Option String) (start i : Int) : List SmoothedLabel → List Block
  | [] => [⟨cur, start, i - 1⟩]
  | sl :: rest =>
    if sl.label ≠ cur then ⟨cur, start, i - 1⟩ :: compressGo sl.label i (i + 1) rest
    else compressGo cur start (i + 1) rest

/-- `compressSmoothedLabelsToBlocks` (source lines 436-473): compress the
smoothed label sequence into maximal runs. -/
def compressSmoothedLabelsToBlocks (smoothedLabels : List SmoothedLabel) : List Block :=
  match smoothedLabels with
  | [] => []
  | s0 :: rest => compressGo s0.label 0 1 rest

/-- `currentBlock.gesture === null || currentBlock.gesture === 'None'`. -/
def isAbsentG (gesture : Option String) : Bool :=
  gesture == none || gesture == some "None"

/-- The source helper `isNonNone`:
`gesture !== null && gesture !== 'None'`. -/
def isNonNoneG (gesture : Option String) : Bool :=
  !(gesture == none) && !(gesture == some "None")

/-- `currentBlock.end - currentBlock.start + 1`. -/
def blockLength (b : Block) : Int := b.«end» - b.start + 1

/-- `merged.length > 0 && isNonNone(merged[merged.length - 1].gesture)`, with
the emitted-so-far list kept in reverse order (its head is the last emitted
block). -/
def prevNonNone (acc : List Block) : Bool :=
  match acc.head? with
  | some p => isNonNoneG p.gesture
  | none => false

/-- `merged[merged.length - 1].end = currentBlock.end` on the reversed
accumulator. -/
def extendPrev (acc : List Block) (e : Int) : List Block :=
  match acc with
  | p :: acc2 => { p with «end» := e } :: acc2
  | [] => []

/-- The loop of `mergeTinyGaps` (source lines 486-522) over the reversed
accumulator `acc`: a null/"None" block of length at most `maxGapSize` is
absorbed into a non-null previous block (extending its end), else into a
non-null following block (extending its start, consuming it), else dropped;
every other block is emitted unchanged. -/
def mergeTinyGapsGo (maxGapSize : Int) (acc : List Block) : List Block → List Block
  | [] => acc.reverse
  | b :: rest =>
    if isAbsentG b.gesture && decide (blockLength b ≤ maxGapSize) then
      if prevNonNone acc then mergeTinyGapsGo maxGapSize (extendPrev acc b.«end») rest
      else
        match rest with
        | nb :: rest2 =>
          if isNonNoneG nb.gesture then
            mergeTinyGapsGo maxGapSize ({ nb with start := b.start } :: acc) rest2
          else mergeTinyGapsGo maxGapSize acc (nb :: rest2)
        | [] => mergeTinyGapsGo maxGapSize acc []
    else mergeTinyGapsGo maxGapSize (b :: acc) rest

/-- `mergeTinyGaps` (source lines 479-525). -/
def mergeTinyGaps (maxGapSize : Int) (blocks : List Block) : List Block :=
  match blocks with
  | [] => []
  | _ => mergeTinyGapsGo maxGapSize [] blocks

/-- The loop of `mergeConsecutiveSameGestures` (source lines 539-557): extend
the current block over following blocks with the same normalized gesture. -/
def mergeConsecutiveGo (cur : Block) : List Block → List Block
  | [] => [cur]
  | nb :: rest =>
    if normG cur.gesture = normG nb.gesture then
      mergeConsecutiveGo { cur with «end» := nb.«end» } rest
    else cur :: mergeConsecutiveGo nb rest

/-- `mergeConsecutiveSameGestures` (source lines 531-560). -/
def mergeConsecutiveSameGestures (blocks : List Block) : List Block :=
  match blocks with
  | [] => []
  | b :: rest => mergeConsecutiveGo b rest

/-- `matchGestureSequence` (source lines 581-606): false on an empty block
list or sequence, or when there are fewer blocks than sequence elements;
otherwise every position `i` of the sequence must match block
`blocks.length - (sequence.length - i)` up to "None"/null normalization. -/
def matchGestureSequence (blocks : List Block) (sequence : List (Option String)) : Bool :=
  if blocks.length = 0 || sequence.length = 0 then false
  else if blocks.length < sequence.length then false
  else
    (List.range sequence.length).all fun i =>
      match blocks.get? (blocks.length - (sequence.length - i)), sequence.get? i with
      | some bl, some e => normG bl.gesture == normG e
      | _, _ => false

/-- JavaScript `list[i]` for a signed index: undefined when out of range. -/
def listGetI (l : List BufferEntry) (i : Int) : Option BufferEntry :=
  if 0 ≤ i then l.get? i.toNat else none

/-- The cleaned block list computed by `detectTemporalGesture` (source lines
616-625): majority filter, compression, tiny-gap merge, then merge of
consecutive equal gestures. -/
def cleanedBlocks (mws : Nat) (mgs : Int) (buffer : List BufferEntry) : List Block :=
  mergeConsecutiveSameGestures
    (mergeTinyGaps mgs (compressSmoothedLabelsToBlocks (applySlidingMajorityFilter mws buffer)))

/-- `detectTemporalGesture` (source lines 611-650): on an Open_Palm then
Closed_Fist block suffix, compare palm-center x at the last buffer entry with
palm-center x at the start index of the last block; `deltaX > 0.1` gives
swipe_left, `deltaX < -0.1` swipe_right; otherwise (including missing palm
centers) fall through to the click pattern Pointing_Up, Closed_Fist,
Pointing_Up. -/
def detectTemporalGesture (mws : Nat) (mgs : Int) (buffer : List BufferEntry) :
    Option TemporalGestureResult :=
  if buffer.length = 0 then none
  else
    let blocks := cleanedBlocks mws mgs buffer
    let swipeResult : Option TemporalGestureResult :=
      if matchGestureSequence blocks [some "Open_Palm", some "Closed_Fist"] then
        match blocks.getLast? with
        | some lastBlock =>
          match (listGetI buffer lastBlock.start).bind BufferEntry.palmCenter,
              (listGetI buffer ((buffer.length : Int) - 1)).bind BufferEntry.palmCenter with
          | some firstPalmCenter, some lastPalmCenter =>
            let deltaX := lastPalmCenter.x - firstPalmCenter.x
            if (1 : ℚ) / 10 < deltaX then some .swipe_left
            else if deltaX < -((1 : ℚ) / 10) then some .swipe_right
            else none
          | _, _ => none
        | none => none
      else none
    match swipeResult with
    | some r => some r
    | none =>
      if matchGestureSequence blocks
          [some "Pointing_Up", some "Closed_Fist", some "Pointing_Up"] then
        some .click
      else none

/-- The buffer entry built for the current frame (source lines 706-759):
reference points of the first hand, EMA-smoothed against the stored state,
plus the frame's top gesture and timestamp. -/
def frameEntry (s : TState) (frameData : GestureFrameData) : BufferEntry :=
  let landmarks := frameData.landmarks.head?.getD []
  let refPoints := computeReferencePoints landmarks
  { wrist := applyEMA s.emaAlpha refPoints.wrist s.smoothedWrist,
    palmCenter := applyEMA s.emaAlpha refPoints.palmCenter s.smoothedPalmCenter,
    thumbTip := applyEMA s.emaAlpha refPoints.thumbTip s.smoothedThumbTip,
    indexTip := applyEMA s.emaAlpha refPoints.indexTip s.smoothedIndexTip,
    topGesture := frameData.topGesture,
    timestamp := frameData.timestamp }

/-- `this.buffer.push(entry)` followed by a single `shift()` when the length
exceeds `bufferSize` (source lines 762-765). -/
def nextBuffer (s : TState) (entry : BufferEntry) : List BufferEntry :=
  let buffer1 := s.buffer ++ [entry]
  if s.bufferSize < buffer1.length then buffer1.tail else buffer1

/-- `processTemporalGestureDetection` (source lines 705-789): emit a point
event when the top label is Pointing_Up and a smoothed palm center exists;
always append the new entry (with FIFO eviction); run detection on the
resulting buffer; emit a detected gesture and clear the buffer afterwards
unless it is a point gesture. Returns the dispatched events in order plus the
updated state. -/
def processTemporalGestureDetection (s : TState) (frameData : GestureFrameData) :
    List TemporalGestureResult × TState :=
  let entry := frameEntry s frameData
  let isPointing :=
    (frameData.topGesture.map RecognizedGesture.categoryName == some "Pointing_Up") &&
      entry.palmCenter.isSome
  let pointEvents : List TemporalGestureResult :=
    if isPointing then
      match entry.palmCenter with
      | some pc => [TemporalGestureResult.point pc.x (pc.y - (3 : ℚ) / 10)]
      | none => []
    else []
  let lastDetected : Option GestureKind :=
    if isPointing then some GestureKind.point
    else if s.lastDetectedGesture = some GestureKind.point then none
    else s.lastDetectedGesture
  let buffer2 := nextBuffer s entry
  match detectTemporalGesture s.majorityWindowSize s.maxGapSize buffer2 with
  | some g =>
    (pointEvents ++ [g],
      { s with
        buffer := if g.kind = GestureKind.point then buffer2 else [],
        smoothedWrist := entry.wrist,
        smoothedPalmCenter := entry.palmCenter,
        smoothedThumbTip := entry.thumbTip,
        smoothedIndexTip := entry.indexTip,
        lastDetectedGesture := lastDetected })
  | none =>
    (pointEvents,
      { s with
        buffer := buffer2,
        smoothedWrist := entry.wrist,
        smoothedPalmCenter := entry.palmCenter,
        smoothedThumbTip := entry.thumbTip,
        smoothedIndexTip := entry.indexTip,
        lastDetectedGesture := lastDetected })

/-! ## Lemmas about the sequence matcher -/

/-- The matcher succeeds exactly when the sequence is nonempty, not longer
than the block list, and normalized-equal to the final blocks. -/
theorem matchGestureSequence_iff (blocks : List Block) (seq : List (Option String)) :
    matchGestureSequence blocks seq = true ↔
      seq ≠ [] ∧ seq.length ≤ blocks.length ∧
        (blocks.drop (blocks.length - seq.length)).map (fun b => normG b.gesture) =
          seq.map normG := by
  unfold matchGestureSequence
  split_ifs with h1 h2
  · simp only [Bool.or_eq_true, decide_eq_true_eq] at h1
    constructor
    · intro h; exact absurd h (by simp)
    · rintro ⟨hne, hle, -⟩
      rcases h1 with h1 | h1
      · exact absurd (List.length_eq_zero.mp (Nat.le_zero.mp (h1 ▸ hle))) hne
      · exact absurd (List.length_eq_zero.mp h1) hne
  · constructor
    · intro h; exact absurd h (by simp)
    · rintro ⟨-, hle, -⟩; omega
  · simp only [Bool.or_eq_true, decide_eq_true_eq, not_or] at h1
    rw [not_lt] at h2
    rw [List.all_eq_true]
    constructor
    · intro h
      refine ⟨fun hseq => h1.2 (by simp [hseq]), h2, ?_⟩
      apply List.ext
      intro n
      rcases Nat.lt_or_ge n seq.length with hn | hn
      · have hcond := h n (List.mem_range.mpr hn)
        rw [List.get?_map, List.get?_map, List.get?_drop]
        have hidx : blocks.length - seq.length + n = blocks.length - (seq.length - n) := by
          omega
        rw [hidx]
        cases hbl : blocks.get? (blocks.length - (seq.length - n)) with
        | none =>
          have := List.get?_eq_none.mp hbl
          omega
        | some bl =>
          cases hsq : seq.get? n with
          | none =>
            have := List.get?_eq_none.mp hsq
            omega
          | some e =>
            rw [hbl, hsq] at hcond
            simp only [Option.map_some']
            simp only [beq_iff_eq] at hcond
            exact congrArg some hcond
      · have hb : blocks.get? (blocks.length - seq.length + n) = none :=
          List.get?_eq_none.mpr (by omega)
        have hs : seq.get? n = none := List.get?_eq_none.mpr (by omega)
        rw [List.get?_map, List.get?_map, List.get?_drop, hb, hs]; rfl
    · rintro ⟨-, -, heq⟩ n hn
      rw [List.mem_range] at hn
      have h3 := congrArg (fun l : List (Option String) => l.get? n) heq
      simp only [List.get?_map, List.get?_drop] at h3
      have hidx : blocks.length - seq.length + n = blocks.length - (seq.length - n) := by
        omega
      rw [hidx] at h3
      cases hbl : blocks.get? (blocks.length - (seq.length - n)) with
      | none =>
        have := List.get?_eq_none.mp hbl
        omega
      | some bl =>
        cases hsq : seq.get? n with
        | none =>
          have := List.get?_eq_none.mp hsq
          omega
        | some e =>
          rw [hbl, hsq] at h3
          simp only [Option.map_some', Option.some.injEq] at h3
          simpa [beq_iff_eq] using h3

/-- A successful match forces the last block to agree (normalized) with the
last element of the sequence. -/
theorem matchGestureSequence_last_norm (blocks : List Block) (seq : List (Option String))
    (b : Block) (e : Option String) (h : matchGestureSequence blocks seq = true)
    (hb : blocks.getLast? = some b) (he : seq.getLast? = some e) :
    normG b.gesture = normG e := by
  obtain ⟨hne, hle, heq⟩ := (matchGestureSequence_iff blocks seq).mp h
  have hslen : 0 < seq.length := by
    cases seq with
    | nil => exact absurd rfl hne
    | cons x xs => simp
  have h3 := congrArg List.getLast? heq
  rw [List.getLast?_eq_get?, List.getLast?_eq_get?, List.get?_map, List.get?_map,
    List.length_map, List.length_map, List.length_drop, List.get?_drop] at h3
  have hidx : blocks.length - seq.length + (blocks.length - (blocks.length - seq.length) - 1) =
      blocks.length - 1 := by omega
  rw [hidx] at h3
  rw [List.getLast?_eq_get?] at hb he
  rw [hb, he] at h3
  simpa using h3

/-- C7: matchGestureSequence returns false whenever there are fewer blocks
than pattern elements; a successful match is anchored at the tail: the last
pattern-length blocks agree with the pattern up to normalization (nothing
follows the matched suffix), and earlier blocks are unconstrained (any block
list with the same final blocks also matches). -/
theorem matchGestureSequence_spec (blocks : List Block) (seq : List (Option String)) :
    (blocks.length < seq.length → matchGestureSequence blocks seq = false) ∧
    (matchGestureSequence blocks seq = true →
      (blocks.drop (blocks.length - seq.length)).map (fun b => normG b.gesture) =
        seq.map normG) ∧
    (matchGestureSequence blocks seq = true →
      ∀ blocks2 : List Block, seq.length ≤ blocks2.length →
        blocks2.drop (blocks2.length - seq.length) =
          blocks.drop (blocks.length - seq.length) →
        matchGestureSequence blocks2 seq = true) := by
  refine ⟨?_, ?_, ?_⟩
  · intro hlt
    cases hm : matchGestureSequence blocks seq with
    | false => rfl
    | true =>
      obtain ⟨-, hle, -⟩ := (matchGestureSequence_iff blocks seq).mp hm
      omega
  · intro hm
    exact ((matchGestureSequence_iff blocks seq).mp hm).2.2
  · intro hm blocks2 hlen hdrop
    obtain ⟨hne, hle, heq⟩ := (matchGestureSequence_iff blocks seq).mp hm
    exact (matchGestureSequence_iff blocks2 seq).mpr ⟨hne, hlen, by rw [hdrop]; exact heq⟩

/-- C7 witness: a length-1 block list fails a length-2 pattern; a concrete
tail-anchored match succeeds and yields the normalized suffix equality. -/
theorem matchGestureSequence_spec_witness :
    matchGestureSequence [Block.mk (some "Closed_Fist") 0 4]
      [some "Open_Palm", some "Closed_Fist"] = false ∧
    (([Block.mk (some "None") 0 1, Block.mk (some "Open_Palm") 2 4,
        Block.mk (some "Closed_Fist") 5 9].drop 1).map (fun b => normG b.gesture) =
      [some "Open_Palm", some "Closed_Fist"].map normG) := by
  constructor
  · exact (matchGestureSequence_spec [Block.mk (some "Closed_Fist") 0 4]
      [some "Open_Palm", some "Closed_Fist"]).1 (by decide)
  · exact (matchGestureSequence_spec [Block.mk (some "None") 0 1,
      Block.mk (some "Open_Palm") 2 4, Block.mk (some "Closed_Fist") 5 9]
      [some "Open_Palm", some "Closed_Fist"]).2.1 (by decide)

/-! ## Lemmas about block compression -/

/-- Invariants of the compression loop: starting a run at `start < i` with the
remaining labels at index `i`, the produced blocks are nonempty, begin with
the open run, end at the final index, have ordered bounds, are adjacent, and
change gesture at every boundary. -/
theorem compressGo_spec (ls : List SmoothedLabel) :
    ∀ (cur : Option String) (start i : Int), start < i →
      (compressGo cur start i ls ≠ [] ∧
        (compressGo cur start i ls).head?.map Block.start = some start ∧
        (compressGo cur start i ls).head?.map Block.gesture = some cur ∧
        (compressGo cur start i ls).getLast?.map (fun b => b.«end») =
          some (i + ls.length - 1) ∧
        (∀ b ∈ compressGo cur start i ls, b.start ≤ b.«end») ∧
        List.Chain' (fun a b => b.start = a.«end» + 1) (compressGo cur start i ls) ∧
        List.Chain' (fun a b => a.gesture ≠ b.gesture) (compressGo cur start i ls)) := by
  induction ls with
  | nil =>
    intro cur start i h
    refine ⟨by simp [compressGo], by simp [compressGo], by simp [compressGo], ?_, ?_, ?_, ?_⟩
    · simp only [compressGo, List.getLast?_singleton, Option.map_some', List.length_nil]
      exact congrArg some (by push_cast; ring)
    · intro b hb
      simp only [compressGo, List.mem_singleton] at hb
      subst hb
      simpa using by omega
    · simp [compressGo]
    · simp [compressGo]
  | cons sl rest ih =>
    intro cur start i h
    by_cases hl : sl.label ≠ cur
    · have hgo : compressGo cur start i (sl :: rest) =
          ⟨cur, start, i - 1⟩ :: compressGo sl.label i (i + 1) rest := by
        simp [compressGo, hl]
      obtain ⟨hne, hhs, hhg, hle, hse, hca, hcg⟩ := ih sl.label i (i + 1) (by omega)
      rw [hgo]
      refine ⟨by simp, by simp, by simp, ?_, ?_, ?_, ?_⟩
      · cases hrec : compressGo sl.label i (i + 1) rest with
        | nil => exact absurd hrec hne
        | cons x xs =>
          rw [List.getLast?_cons_cons]
          rw [hrec] at hle
          rw [hle]
          exact congrArg some (by simp only [List.length_cons]; push_cast; ring)
      · intro b hb
        rcases List.mem_cons.mp hb with hb | hb
        · subst hb; simp only []; omega
        · exact hse b hb
      · rw [List.chain'_cons']
        refine ⟨?_, hca⟩
        intro y hy
        have : (compressGo sl.label i (i + 1) rest).head? = some y := hy
        rw [this] at hhs
        simp only [Option.map_some', Option.some.injEq] at hhs
        simp only []
        omega
      · rw [List.chain'_cons']
        refine ⟨?_, hcg⟩
        intro y hy
        have : (compressGo sl.label i (i + 1) rest).head? = some y := hy
        rw [this] at hhg
        simp only [Option.map_some', Option.some.injEq] at hhg
        simp only []
        rw [hhg]
        exact fun hc => hl hc.symm
    · have hgo : compressGo cur start i (sl :: rest) = compressGo cur start (i + 1) rest := by
        simp [compressGo, hl]
      obtain ⟨hne, hhs, hhg, hle, hse, hca, hcg⟩ := ih cur start (i + 1) (by omega)
      rw [hgo]
      refine ⟨hne, hhs, hhg, ?_, hse, hca, hcg⟩
      rw [hle]
      exact congrArg some (by simp only [List.length_cons]; push_cast; ring)

/-- C8: for a nonempty smoothed-label sequence the compressed blocks exactly
partition the index range: first block starts at 0, last block ends at
length-1, bounds are ordered, consecutive blocks are adjacent, and adjacent
blocks carry different labels. -/
theorem compress_partitions_range (smoothedLabels : List SmoothedLabel)
    (h : smoothedLabels ≠ []) :
    compressSmoothedLabelsToBlocks smoothedLabels ≠ [] ∧
    (compressSmoothedLabelsToBlocks smoothedLabels).head?.map Block.start = some 0 ∧
    (compressSmoothedLabelsToBlocks smoothedLabels).getLast?.map (fun b => b.«end») =
      some ((smoothedLabels.length : Int) - 1) ∧
    (∀ b ∈ compressSmoothedLabelsToBlocks smoothedLabels, b.start ≤ b.«end») ∧
    List.Chain' (fun a b => b.start = a.«end» + 1)
      (compressSmoothedLabelsToBlocks smoothedLabels) ∧
    List.Chain' (fun a b => a.gesture ≠ b.gesture)
      (compressSmoothedLabelsToBlocks smoothedLabels) := by
  cases smoothedLabels with
  | nil => exact absurd rfl h
  | cons s0 rest =>
    obtain ⟨hne, hhs, hhg, hle, hse, hca, hcg⟩ := compressGo_spec rest s0.label 0 1 (by omega)
    refine ⟨hne, hhs, ?_, hse, hca, hcg⟩
    show (compressGo s0.label 0 1 rest).getLast?.map (fun b => b.«end») = _
    rw [hle]
    exact congrArg some (by simp)

/-- C8 witness: blocks of a concrete two-label snapshot partition the range
with maximal runs. -/
theorem compress_partitions_range_witness :
    compressSmoothedLabelsToBlocks
      [SmoothedLabel.mk (some "Open_Palm") 1, SmoothedLabel.mk none 1] ≠ [] ∧
    (compressSmoothedLabelsToBlocks
      [SmoothedLabel.mk (some "Open_Palm") 1, SmoothedLabel.mk none 1]).head?.map
        Block.start = some 0 ∧
    (compressSmoothedLabelsToBlocks
      [SmoothedLabel.mk (some "Open_Palm") 1, SmoothedLabel.mk none 1]).getLast?.map
        (fun b => b.«end») = some ((2 : Int) - 1) ∧
    (∀ b ∈ compressSmoothedLabelsToBlocks
      [SmoothedLabel.mk (some "Open_Palm") 1, SmoothedLabel.mk none 1],
        b.start ≤ b.«end») ∧
    List.Chain' (fun a b => b.start = a.«end» + 1)
      (compressSmoothedLabelsToBlocks
        [SmoothedLabel.mk (some "Open_Palm") 1, SmoothedLabel.mk none 1]) ∧
    List.Chain' (fun a b => a.gesture ≠ b.gesture)
      (compressSmoothedLabelsToBlocks
        [SmoothedLabel.mk (some "Open_Palm") 1, SmoothedLabel.mk none 1]) :=
  compress_partitions_range
    [SmoothedLabel.mk (some "Open_Palm") 1, SmoothedLabel.mk none 1] (by decide)

/-! ## Lemmas about tiny-gap merging -/

theorem isNonNoneG_eq_not_isAbsentG (gesture : Option String) :
    isNonNoneG gesture = !(isAbsentG gesture) := by
  cases gesture <;> simp [isNonNoneG, isAbsentG]

theorem extendPrev_length (acc : List Block) (e : Int) :
    (extendPrev acc e).length = acc.length := by
  cases acc <;> rfl

theorem mergeTinyGapsGo_length (maxGapSize : Int) (acc rest : List Block) :
    (mergeTinyGapsGo maxGapSize acc rest).length ≤ acc.length + rest.length := by
  induction acc, rest using mergeTinyGapsGo.induct maxGapSize with
  | case1 acc =>
    simp [mergeTinyGapsGo]
  | case2 acc b rest h1 h2 ih =>
    unfold mergeTinyGapsGo
    rw [if_pos h1, if_pos h2]
    rw [extendPrev_length] at ih
    simp only [List.length_cons]
    omega
  | case3 acc b h1 h2 p acc2 h3 ih =>
    unfold mergeTinyGapsGo
    rw [if_pos h1, if_neg h2]
    simp only [if_pos h3]
    simp only [List.length_cons] at ih ⊢
    omega
  | case4 acc b h1 h2 p acc2 h3 ih =>
    unfold mergeTinyGapsGo
    rw [if_pos h1, if_neg h2]
    simp only [if_neg h3]
    simp only [List.length_cons] at ih ⊢
    omega
  | case5 acc b h1 h2 ih =>
    unfold mergeTinyGapsGo
    rw [if_pos h1, if_neg h2]
    simp only [List.length_cons] at ih ⊢
    omega
  | case6 acc b rest h1 ih =>
    unfold mergeTinyGapsGo
    rw [if_neg h1]
    simp only [List.length_cons] at ih ⊢
    omega

theorem mergeTinyGapsGo_mem (maxGapSize : Int) (b : Block)
    (hab : isAbsentG b.gesture = true) (hlen : maxGapSize < blockLength b) :
    ∀ (acc rest : List Block), b ∈ acc ∨ b ∈ rest →
      b ∈ mergeTinyGapsGo maxGapSize acc rest := by
  intro acc rest
  induction acc, rest using mergeTinyGapsGo.induct maxGapSize with
  | case1 acc =>
    intro hmem
    rcases hmem with hmem | hmem
    · simpa [mergeTinyGapsGo] using hmem
    · simp at hmem
  | case2 acc b1 rest h1 h2 ih =>
    intro hmem
    unfold mergeTinyGapsGo
    rw [if_pos h1, if_pos h2]
    have hne1 : b ≠ b1 := by
      intro hc
      subst hc
      simp only [Bool.and_eq_true, decide_eq_true_eq] at h1
      omega
    apply ih
    rcases hmem with hmem | hmem
    · left
      cases acc with
      | nil => simp [prevNonNone] at h2
      | cons p acc2 =>
        have hpn : isNonNoneG p.gesture = true := by simpa [prevNonNone] using h2
        rcases List.mem_cons.mp hmem with hmem | hmem
        · subst hmem
          rw [isNonNoneG_eq_not_isAbsentG, hab] at hpn
          simp at hpn
        · exact List.mem_cons_of_mem _ hmem
    · rcases List.mem_cons.mp hmem with hmem | hmem
      · exact absurd hmem hne1
      · exact Or.inr hmem
  | case3 acc b1 h1 h2 p acc2 h3 ih =>
    intro hmem
    unfold mergeTinyGapsGo
    rw [if_pos h1, if_neg h2]
    simp only [if_pos h3]
    have hne1 : b ≠ b1 := by
      intro hc
      subst hc
      simp only [Bool.and_eq_true, decide_eq_true_eq] at h1
      omega
    have hnep : b ≠ p := by
      intro hc
      subst hc
      rw [isNonNoneG_eq_not_isAbsentG, hab] at h3
      simp at h3
    apply ih
    rcases hmem with hmem | hmem
    · exact Or.inl (List.mem_cons_of_mem _ hmem)
    · rcases List.mem_cons.mp hmem with hmem | hmem
      · exact absurd hmem hne1
      · rcases List.mem_cons.mp hmem with hmem | hmem
        · exact absurd hmem hnep
        · exact Or.inr hmem
  | case4 acc b1 h1 h2 p acc2 h3 ih =>
    intro hmem
    unfold mergeTinyGapsGo
    rw [if_pos h1, if_neg h2]
    simp only [if_neg h3]
    have hne1 : b ≠ b1 := by
      intro hc
      subst hc
      simp only [Bool.and_eq_true, decide_eq_true_eq] at h1
      omega
    apply ih
    rcases hmem with hmem | hmem
    · exact Or.inl hmem
    · rcases List.mem_cons.mp hmem with hmem | hmem
      · exact absurd hmem hne1
      · exact Or.inr hmem
  | case5 acc b1 h1 h2 ih =>
    intro hmem
    unfold mergeTinyGapsGo
    rw [if_pos h1, if_neg h2]
    have hne1 : b ≠ b1 := by
      intro hc
      subst hc
      simp only [Bool.and_eq_true, decide_eq_true_eq] at h1
      omega
    apply ih
    rcases hmem with hmem | hmem
    · exact Or.inl hmem
    · rcases List.mem_cons.mp hmem with hmem | hmem
      · exact absurd hmem hne1
      · exact Or.inr hmem
  | case6 acc b1 rest h1 ih =>
    intro hmem
    unfold mergeTinyGapsGo
    rw [if_neg h1]
    apply ih
    rcases hmem with hmem | hmem
    · exact Or.inl (List.mem_cons_of_mem _ hmem)
    · rcases List.mem_cons.mp hmem with hmem | hmem
      · exact Or.inl (hmem ▸ List.mem_cons_self _ _)
      · exact Or.inr hmem

/-- C9: mergeTinyGaps never increases the number of blocks, and every
null/"None" block strictly longer than maxGapSize is kept unchanged in the
output. -/
theorem mergeTinyGaps_spec (maxGapSize : Int) (blocks : List Block) :
    (mergeTinyGaps maxGapSize blocks).length ≤ blocks.length ∧
    (∀ b ∈ blocks, isAbsentG b.gesture = true → maxGapSize < blockLength b →
      b ∈ mergeTinyGaps maxGapSize blocks) := by
  constructor
  · cases blocks with
    | nil => simp [mergeTinyGaps]
    | cons b0 rest =>
      have h := mergeTinyGapsGo_length maxGapSize [] (b0 :: rest)
      simpa [mergeTinyGaps] using h
  · intro b hb hab hlen
    cases blocks with
    | nil => simp at hb
    | cons b0 rest =>
      have h := mergeTinyGapsGo_mem maxGapSize b hab hlen [] (b0 :: rest) (Or.inr hb)
      simpa [mergeTinyGaps] using h

/-- C9 witness: on a concrete block list with one long null block and one tiny
null gap, the output has no more blocks and keeps the long null block. -/
theorem mergeTinyGaps_spec_witness :
    (mergeTinyGaps 2 [Block.mk none 0 4, Block.mk (some "Open_Palm") 5 6,
      Block.mk none 7 7, Block.mk (some "Closed_Fist") 8 9]).length ≤ 4 ∧
    Block.mk none 0 4 ∈ mergeTinyGaps 2 [Block.mk none 0 4,
      Block.mk (some "Open_Palm") 5 6, Block.mk none 7 7,
      Block.mk (some "Closed_Fist") 8 9] := by
  constructor
  · exact (mergeTinyGaps_spec 2 [Block.mk none 0 4, Block.mk (some "Open_Palm") 5 6,
      Block.mk none 7 7, Block.mk (some "Closed_Fist") 8 9]).1
  · exact (mergeTinyGaps_spec 2 [Block.mk none 0 4, Block.mk (some "Open_Palm") 5 6,
      Block.mk none 7 7, Block.mk (some "Closed_Fist") 8 9]).2
      (Block.mk none 0 4) (by decide) (by decide) (by decide)

/-! ## Lemmas about the majority filter tallies -/

theorem lookupCount_nil (l : String) : lookupCount [] l = 0 := rfl

theorem lookupCount_cons (k : String) (c : Nat) (rest : List (String × Nat)) (l : String) :
    lookupCount ((k, c) :: rest) l = if k = l then c else lookupCount rest l := by
  by_cases h : k = l
  · subst h
    simp [lookupCount, List.find?_cons_of_pos]
  · rw [if_neg h]
    unfold lookupCount
    rw [List.find?_cons_of_neg]
    simpa using h

theorem lookupCount_bumpCount (m : List (String × Nat)) (l t : String) :
    lookupCount (bumpCount m t) l = lookupCount m l + if l = t then 1 else 0 := by
  induction m with
  | nil =>
    show lookupCount [(t, 1)] l = lookupCount [] l + if l = t then 1 else 0
    rw [lookupCount_cons, lookupCount_nil]
    by_cases h : l = t
    · subst h; simp
    · rw [if_neg (fun hc : t = l => h hc.symm), if_neg h]
  | cons kv rest ih =>
    obtain ⟨k, c⟩ := kv
    by_cases hk : k = t
    · subst hk
      have hb : bumpCount ((k, c) :: rest) k = (k, c + 1) :: rest := by
        simp [bumpCount]
      rw [hb, lookupCount_cons, lookupCount_cons]
      by_cases hl : k = l
      · subst hl
        simp
      · rw [if_neg hl, if_neg hl, if_neg (fun hc : l = k => hl hc.symm)]
        omega
    · have hb : bumpCount ((k, c) :: rest) t = (k, c) :: bumpCount rest t := by
        simp [bumpCount, hk]
      rw [hb, lookupCount_cons, lookupCount_cons]
      by_cases hl : k = l
      · subst hl
        rw [if_pos rfl, if_pos rfl, if_neg hk]
        omega
      · rw [if_neg hl, if_neg hl]
        exact ih

theorem lookupCount_foldl (ls : List String) :
    ∀ (m : List (String × Nat)) (l : String),
      lookupCount (ls.foldl bumpCount m) l = lookupCount m l + ls.count l := by
  induction ls with
  | nil => intro m l; simp
  | cons a as ih =>
    intro m l
    simp only [List.foldl_cons]
    rw [ih, lookupCount_bumpCount, List.count_cons]
    by_cases h : l = a
    · subst h
      rw [if_pos rfl, if_pos (by simp)]
      omega
    · rw [if_neg h, if_neg (by simp only [beq_iff_eq]; exact fun hc => h hc.symm)]
      omega

theorem lookupCount_labelCountsAt (mws : Nat) (buffer : List BufferEntry) (i : Nat)
    (l : String) :
    lookupCount (labelCountsAt mws buffer i) l =
      ((windowEntries mws buffer i).map labelOfEntry).count l := by
  unfold labelCountsAt
  rw [lookupCount_foldl]
  simp [lookupCount_nil]

theorem keys_bumpCount (m : List (String × Nat)) (t : String) :
    (bumpCount m t).map Prod.fst =
      if t ∈ m.map Prod.fst then m.map Prod.fst else m.map Prod.fst ++ [t] := by
  induction m with
  | nil => simp [bumpCount]
  | cons kv rest ih =>
    obtain ⟨k, c⟩ := kv
    by_cases hk : k = t
    · subst hk
      have hb : bumpCount ((k, c) :: rest) k = (k, c + 1) :: rest := by
        simp [bumpCount]
      rw [hb, if_pos (by simp)]
      simp
    · have hb : bumpCount ((k, c) :: rest) t = (k, c) :: bumpCount rest t := by
        simp [bumpCount, hk]
      rw [hb]
      simp only [List.map_cons]
      rw [ih]
      by_cases hm : t ∈ rest.map Prod.fst
      · rw [if_pos hm, if_pos (by simp [hm])]
      · have hnot : t ∉ (k :: rest.map Prod.fst) := by
          intro hc
          rcases List.mem_cons.mp hc with hc | hc
          · exact hk hc.symm
          · exact hm hc
        rw [if_neg hm, if_neg hnot]
        rfl

theorem nodup_keys_bumpCount (m : List (String × Nat)) (t : String)
    (h : (m.map Prod.fst).Nodup) : ((bumpCount m t).map Prod.fst).Nodup := by
  rw [keys_bumpCount]
  by_cases hm : t ∈ m.map Prod.fst
  · simpa [hm] using h
  · rw [if_neg hm, List.nodup_append]
    refine ⟨h, List.nodup_singleton t, ?_⟩
    intro x hx hx2
    simp only [List.mem_singleton] at hx2
    subst hx2
    exact hm hx

theorem nodup_keys_foldl (ls : List String) :
    ∀ m : List (String × Nat), (m.map Prod.fst).Nodup →
      ((ls.foldl bumpCount m).map Prod.fst).Nodup := by
  induction ls with
  | nil => intro m h; simpa using h
  | cons a as ih =>
    intro m h
    simp only [List.foldl_cons]
    exact ih _ (nodup_keys_bumpCount m a h)

theorem lookupCount_of_mem_nodup (m : List (String × Nat))
    (h : (m.map Prod.fst).Nodup) (k : String) (v : Nat) (hm : (k, v) ∈ m) :
    lookupCount m k = v := by
  induction m with
  | nil => simp at hm
  | cons kv rest ih =>
    obtain ⟨k0, v0⟩ := kv
    simp only [List.map_cons, List.nodup_cons] at h
    rcases List.mem_cons.mp hm with hm2 | hm2
    · injection hm2 with hk hv
      subst hk; subst hv
      rw [lookupCount_cons, if_pos rfl]
    · have hk : k ≠ k0 := by
        intro hc
        subst hc
        exact h.1 (List.mem_map.mpr ⟨(k, v), hm2, rfl⟩)
      rw [lookupCount_cons, if_neg (fun hc => hk hc.symm)]
      exact ih h.2 hm2

theorem pos_counts_bumpCount (m : List (String × Nat)) (t : String)
    (h : ∀ p ∈ m, 0 < p.2) : ∀ p ∈ bumpCount m t, 0 < p.2 := by
  induction m with
  | nil =>
    intro p hp
    simp only [bumpCount, List.mem_singleton] at hp
    subst hp; simp
  | cons kv rest ih =>
    obtain ⟨k, c⟩ := kv
    intro p hp
    by_cases hk : k = t
    · subst hk
      simp only [bumpCount, if_pos rfl] at hp
      rcases List.mem_cons.mp hp with hp | hp
      · subst hp
        simp
      · exact h p (List.mem_cons_of_mem _ hp)
    · simp only [bumpCount, if_neg hk] at hp
      rcases List.mem_cons.mp hp with hp | hp
      · subst hp; exact h (k, c) (List.mem_cons_self _ _)
      · exact ih (fun q hq => h q (List.mem_cons_of_mem _ hq)) p hp

theorem pos_counts_foldl (ls : List String) :
    ∀ m : List (String × Nat), (∀ p ∈ m, 0 < p.2) →
      ∀ p ∈ ls.foldl bumpCount m, 0 < p.2 := by
  induction ls with
  | nil => intro m h; simpa using h
  | cons a as ih =>
    intro m h
    simp only [List.foldl_cons]
    exact ih _ (pos_counts_bumpCount m a h)

/-! ## Lemmas about the majority scan -/

theorem majStep_mem (acc : MajAcc) (p : String × Nat) (S : List (String × Nat))
    (h1 : ∀ t ∈ acc.tieLabels, (t, acc.maxCount) ∈ S)
    (h2 : ∀ l, acc.majorityLabel = some l → (l, acc.maxCount) ∈ S)
    (hp : p ∈ S) :
    (∀ t ∈ (majStep acc p).tieLabels, (t, (majStep acc p).maxCount) ∈ S) ∧
    (∀ l, (majStep acc p).majorityLabel = some l →
      (l, (majStep acc p).maxCount) ∈ S) := by
  unfold majStep
  split_ifs with ha hb
  · constructor
    · intro t ht
      simp only [List.mem_singleton] at ht
      subst ht
      simpa using hp
    · intro l hl
      simp only [Option.some.injEq] at hl
      subst hl
      simpa using hp
  · constructor
    · intro t ht
      rcases List.mem_append.mp ht with ht | ht
      · exact h1 t ht
      · simp only [List.mem_singleton] at ht
        subst ht
        rw [← hb]
        simpa using hp
    · exact h2
  · exact ⟨h1, h2⟩

theorem majFold_mem (m : List (String × Nat)) :
    ∀ (acc : MajAcc) (S : List (String × Nat)),
      (∀ t ∈ acc.tieLabels, (t, acc.maxCount) ∈ S) →
      (∀ l, acc.majorityLabel = some l → (l, acc.maxCount) ∈ S) →
      (∀ p ∈ m, p ∈ S) →
      (∀ t ∈ (m.foldl majStep acc).tieLabels, (t, (m.foldl majStep acc).maxCount) ∈ S) ∧
      (∀ l, (m.foldl majStep acc).majorityLabel = some l →
        (l, (m.foldl majStep acc).maxCount) ∈ S) := by
  induction m with
  | nil => intro acc S h1 h2 _; exact ⟨h1, h2⟩
  | cons p rest ih =>
    intro acc S h1 h2 h3
    simp only [List.foldl_cons]
    obtain ⟨g1, g2⟩ := majStep_mem acc p S h1 h2 (h3 p (List.mem_cons_self _ _))
    exact ih (majStep acc p) S g1 g2 (fun q hq => h3 q (List.mem_cons_of_mem _ hq))

theorem majStep_inv (acc : MajAcc) (p : String × Nat) (hp : 0 < p.2)
    (h : 0 < acc.maxCount → acc.majorityLabel.isSome ∧ acc.tieLabels ≠ []) :
    (0 < (majStep acc p).maxCount →
      (majStep acc p).majorityLabel.isSome ∧ (majStep acc p).tieLabels ≠ []) ∧
    0 < (majStep acc p).maxCount := by
  unfold majStep
  split_ifs with ha hb
  · exact ⟨fun _ => ⟨rfl, by simp⟩, hp⟩
  · have h0 : 0 < acc.maxCount := hb ▸ hp
    obtain ⟨hs, -⟩ := h h0
    exact ⟨fun _ => ⟨hs, by simp⟩, h0⟩
  · have h0 : 0 < acc.maxCount := by omega
    exact ⟨fun _ => h h0, h0⟩

theorem majFold_inv (m : List (String × Nat)) :
    ∀ acc : MajAcc, (∀ p ∈ m, 0 < p.2) →
      (0 < acc.maxCount → acc.majorityLabel.isSome ∧ acc.tieLabels ≠ []) →
      (0 < acc.maxCount ∨ m ≠ []) →
      0 < (m.foldl majStep acc).maxCount ∧
        (m.foldl majStep acc).majorityLabel.isSome ∧
        (m.foldl majStep acc).tieLabels ≠ [] := by
  induction m with
  | nil =>
    intro acc hp hinv hd
    rcases hd with h0 | h0
    · exact ⟨h0, hinv h0⟩
    · exact absurd rfl h0
  | cons p rest ih =>
    intro acc hp hinv hd
    simp only [List.foldl_cons]
    obtain ⟨g1, g2⟩ := majStep_inv acc p (hp p (List.mem_cons_self _ _)) hinv
    exact ih (majStep acc p) (fun q hq => hp q (List.mem_cons_of_mem _ hq)) g1 (Or.inl g2)

/-! ## Lemmas about score lists and the tie-break scan -/

theorem lookupScores_nil (l : String) : lookupScores [] l = [] := rfl

theorem lookupScores_cons (k : String) (ss : List ℚ) (rest : List (String × List ℚ))
    (l : String) :
    lookupScores ((k, ss) :: rest) l = if k = l then ss else lookupScores rest l := by
  by_cases h : k = l
  · subst h
    simp [lookupScores, List.find?_cons_of_pos]
  · rw [if_neg h]
    unfold lookupScores
    rw [List.find?_cons_of_neg]
    simpa using h

theorem lookupScores_addScore (m : List (String × List ℚ)) (p : String × ℚ) (l : String) :
    lookupScores (addScore m p) l =
      lookupScores m l ++ if p.1 = l then [p.2] else [] := by
  obtain ⟨t, s⟩ := p
  induction m with
  | nil =>
    show lookupScores [(t, [s])] l = lookupScores [] l ++ if t = l then [s] else []
    rw [lookupScores_cons, lookupScores_nil]
    by_cases h : t = l
    · simp [h]
    · simp [h]
  | cons kv rest ih =>
    obtain ⟨k, ss⟩ := kv
    by_cases hk : k = t
    · subst hk
      have hb : addScore ((k, ss) :: rest) (k, s) = (k, ss ++ [s]) :: rest := by
        simp [addScore]
      rw [hb, lookupScores_cons, lookupScores_cons]
      by_cases hl : k = l
      · subst hl
        simp
      · simp [hl, fun hc : k = l => hl hc]
    · have hb : addScore ((k, ss) :: rest) (t, s) = (k, ss) :: addScore rest (t, s) := by
        simp [addScore, hk]
      rw [hb, lookupScores_cons, lookupScores_cons]
      by_cases hl : k = l
      · subst hl
        rw [if_pos rfl, if_pos rfl]
        rw [if_neg (show ¬(t, s).1 = k from fun hc => hk hc.symm), List.append_nil]
      · simp [hl, ih]

theorem lookupScores_foldl (ps : List (String × ℚ)) :
    ∀ (m : List (String × List ℚ)) (l : String),
      lookupScores (ps.foldl addScore m) l =
        lookupScores m l ++ (ps.filter (fun q => q.1 == l)).map (fun q => q.2) := by
  induction ps with
  | nil => intro m l; simp
  | cons p rest ih =>
    intro m l
    simp only [List.foldl_cons]
    rw [ih, lookupScores_addScore]
    by_cases h : p.1 = l
    · rw [if_pos h, List.filter_cons_of_pos (by simpa using h), List.map_cons,
        List.append_assoc]
      rfl
    · rw [if_neg h, List.filter_cons_of_neg (by simpa using h), List.append_nil]

/-- The scores of the occurrences of label `l` inside the window at index `i`,
in window order. -/
def windowScoresFor (mws : Nat) (buffer : List BufferEntry) (i : Nat) (l : String) :
    List ℚ :=
  ((windowEntries mws buffer i).filter (fun e => labelOfEntry e == l)).map scoreOfEntry

theorem lookupScores_labelScoresAt (mws : Nat) (buffer : List BufferEntry) (i : Nat)
    (l : String) :
    lookupScores (labelScoresAt mws buffer i) l = windowScoresFor mws buffer i l := by
  unfold labelScoresAt windowScoresFor
  rw [lookupScores_foldl, lookupScores_nil, List.nil_append, List.filter_map,
    List.map_map]
  rfl

theorem windowEntries_ne_nil (mws : Nat) (buffer : List BufferEntry) (i : Nat)
    (hi : i < buffer.length) : windowEntries mws buffer i ≠ [] := by
  unfold windowEntries windowStart windowEnd
  intro hc
  have hlen := congrArg List.length hc
  simp only [List.length_take, List.length_drop, List.length_nil] at hlen
  omega

theorem windowEntries_subset (mws : Nat) (buffer : List BufferEntry) (i : Nat) :
    ∀ e ∈ windowEntries mws buffer i, e ∈ buffer := by
  intro e he
  unfold windowEntries at he
  exact List.drop_subset _ _ (List.take_subset _ _ he)

theorem avgOf_nonneg (ss : List ℚ) (h : ∀ x ∈ ss, 0 ≤ x) : 0 ≤ avgOf ss :=
  div_nonneg (List.sum_nonneg h) (by positivity)

theorem pick_fold_mem (sc : List (String × List ℚ)) (ls : List String) :
    ∀ (b : String) (v : ℚ),
      (ls.foldl (pickStep sc) (b, v)).1 = b ∨ (ls.foldl (pickStep sc) (b, v)).1 ∈ ls := by
  induction ls with
  | nil => intro b v; exact Or.inl rfl
  | cons l rest ih =>
    intro b v
    simp only [List.foldl_cons]
    by_cases hc : (b, v).2 < avgOf (lookupScores sc l)
    · rw [show pickStep sc (b, v) l = (l, avgOf (lookupScores sc l)) from by
        unfold pickStep; rw [if_pos hc]]
      rcases ih l (avgOf (lookupScores sc l)) with h | h
      · exact Or.inr (by rw [h]; exact List.mem_cons_self _ _)
      · exact Or.inr (List.mem_cons_of_mem _ h)
    · rw [show pickStep sc (b, v) l = (b, v) from by
        unfold pickStep; rw [if_neg hc]]
      rcases ih b v with h | h
      · exact Or.inl h
      · exact Or.inr (List.mem_cons_of_mem _ h)

theorem pick_fold_argAux (sc : List (String × List ℚ)) (ls : List String) :
    ∀ b : String,
      ∃ c, ls.foldl
          (List.argAux fun x y => avgOf (lookupScores sc y) < avgOf (lookupScores sc x))
          (some b) = some c ∧
        ls.foldl (pickStep sc) (b, avgOf (lookupScores sc b)) =
          (c, avgOf (lookupScores sc c)) := by
  induction ls with
  | nil => intro b; exact ⟨b, rfl, rfl⟩
  | cons l rest ih =>
    intro b
    simp only [List.foldl_cons]
    by_cases h : avgOf (lookupScores sc b) < avgOf (lookupScores sc l)
    · have h1 : List.argAux
          (fun x y => avgOf (lookupScores sc y) < avgOf (lookupScores sc x))
          (some b) l = some l := by
        simp [List.argAux, h]
      have h2 : pickStep sc (b, avgOf (lookupScores sc b)) l =
          (l, avgOf (lookupScores sc l)) := by
        simp [pickStep, h]
      rw [h1, h2]
      exact ih l
    · have h1 : List.argAux
          (fun x y => avgOf (lookupScores sc y) < avgOf (lookupScores sc x))
          (some b) l = some b := by
        simp [List.argAux, h]
      have h2 : pickStep sc (b, avgOf (lookupScores sc b)) l =
          (b, avgOf (lookupScores sc b)) := by
        simp [pickStep, h]
      rw [h1, h2]
      exact ih b

theorem resolveTie_argmax (tieLabels : List String) (sc : List (String × List ℚ))
    (maj : Option String) (htie : 1 < tieLabels.length)
    (hnn : ∀ l, 0 ≤ avgOf (lookupScores sc l)) :
    (tieLabels.filter (fun l => !(l == "None")) ≠ [] →
      resolveTie tieLabels sc maj =
        (tieLabels.filter (fun l => !(l == "None"))).argmax
          (fun l => avgOf (lookupScores sc l))) ∧
    (tieLabels.filter (fun l => !(l == "None")) = [] →
      resolveTie tieLabels sc maj = tieLabels.head?) := by
  unfold resolveTie
  rw [if_pos htie]
  constructor
  · intro hne
    cases hfil : tieLabels.filter (fun l => !(l == "None")) with
    | nil => exact absurd hfil hne
    | cons c cs =>
      show some ((c :: cs).foldl (pickStep sc) (c, 0)).1 =
        List.argmax (fun l => avgOf (lookupScores sc l)) (c :: cs)
      have hstep : pickStep sc (c, 0) c = (c, avgOf (lookupScores sc c)) := by
        unfold pickStep
        rcases lt_or_eq_of_le (hnn c) with h | h
        · rw [if_pos h]
        · rw [if_neg (show ¬((c, (0 : ℚ)).2 < avgOf (lookupScores sc c)) by
            rw [← h]; exact lt_irrefl 0), ← h]
      obtain ⟨r, h1, h2⟩ := pick_fold_argAux sc cs c
      rw [List.foldl_cons, hstep, h2]
      unfold List.argmax
      rw [List.foldl_cons]
      exact h1.symm
  · intro hfil
    rw [hfil]

/-- The label selected at index `i` carries the window's maximal occurrence
count: the winner resolved by `resolveTie` always occurs `maxCount` times. -/
theorem resolvedLabelAt_count (mws : Nat) (buffer : List BufferEntry) (i : Nat)
    (hi : i < buffer.length) :
    ∃ lstar, resolvedLabelAt mws buffer i = some lstar ∧
      lookupCount (labelCountsAt mws buffer i) lstar =
        (majAccAt mws buffer i).maxCount := by
  have hnodup : ((labelCountsAt mws buffer i).map Prod.fst).Nodup := by
    unfold labelCountsAt
    exact nodup_keys_foldl _ [] (by simp)
  have hpos : ∀ p ∈ labelCountsAt mws buffer i, 0 < p.2 := by
    unfold labelCountsAt
    exact pos_counts_foldl _ [] (by simp)
  have htne : labelCountsAt mws buffer i ≠ [] := by
    intro hc
    cases hwe : windowEntries mws buffer i with
    | nil => exact windowEntries_ne_nil mws buffer i hi hwe
    | cons e es =>
      have hcount := lookupCount_labelCountsAt mws buffer i (labelOfEntry e)
      rw [hc, hwe] at hcount
      rw [lookupCount_nil] at hcount
      simp [List.count_cons] at hcount
  have hAfacts := majFold_inv (labelCountsAt mws buffer i) ⟨none, 0, []⟩ hpos
    (by simp) (Or.inr htne)
  have hmem := majFold_mem (labelCountsAt mws buffer i) ⟨none, 0, []⟩
    (labelCountsAt mws buffer i) (by simp) (by simp) (fun p hp => hp)
  unfold resolvedLabelAt
  by_cases htie : 1 < (majAccAt mws buffer i).tieLabels.length
  · unfold resolveTie
    rw [if_pos htie]
    cases hfil : (majAccAt mws buffer i).tieLabels.filter (fun l => !(l == "None")) with
    | nil =>
      cases htl : (majAccAt mws buffer i).tieLabels with
      | nil => exact absurd htl hAfacts.2.2
      | cons t0 ts =>
        refine ⟨t0, rfl, ?_⟩
        have hin : (t0, (majAccAt mws buffer i).maxCount) ∈ labelCountsAt mws buffer i :=
          hmem.1 t0 (by
            show t0 ∈ (majAccAt mws buffer i).tieLabels
            rw [htl]
            exact List.mem_cons_self _ _)
        exact lookupCount_of_mem_nodup _ hnodup _ _ hin
    | cons c cs =>
      refine ⟨((c :: cs).foldl (pickStep (labelScoresAt mws buffer i)) (c, 0)).1, rfl, ?_⟩
      have hp := pick_fold_mem (labelScoresAt mws buffer i) (c :: cs) c 0
      have hpmem :
          ((c :: cs).foldl (pickStep (labelScoresAt mws buffer i)) (c, 0)).1 ∈ c :: cs := by
        rcases hp with h | h
        · rw [h]; exact List.mem_cons_self _ _
        · exact h
      have hpfil :
          ((c :: cs).foldl (pickStep (labelScoresAt mws buffer i)) (c, 0)).1 ∈
            (majAccAt mws buffer i).tieLabels.filter (fun l => !(l == "None")) := by
        rw [hfil]; exact hpmem
      have hsub := (List.mem_filter.mp hpfil).1
      have hin := hmem.1 _ hsub
      exact lookupCount_of_mem_nodup _ hnodup _ _ hin
  · unfold resolveTie
    rw [if_neg htie]
    obtain ⟨l, hl⟩ := Option.isSome_iff_exists.mp hAfacts.2.1
    exact ⟨l, hl, lookupCount_of_mem_nodup _ hnodup _ _ (hmem.2 l hl)⟩

theorem applySlidingMajorityFilter_get? (mws : Nat) (buffer : List BufferEntry) (i : Nat)
    (hi : i < buffer.length) :
    (applySlidingMajorityFilter mws buffer).get? i = some (majorityAt mws buffer i) := by
  unfold applySlidingMajorityFilter
  rw [if_neg (by omega)]
  rw [List.get?_map, List.get?_range hi]
  rfl

/-- A 3-entry buffer whose every frame carries Open_Palm at confidence 9/10. -/
def cexBuf3 : List BufferEntry :=
  [⟨none, none, none, none, some ⟨"Open_Palm", 9 / 10⟩, 0⟩,
   ⟨none, none, none, none, some ⟨"Open_Palm", 9 / 10⟩, 0⟩,
   ⟨none, none, none, none, some ⟨"Open_Palm", 9 / 10⟩, 0⟩]

/-- C5 counterexample: with configured window size 5 on a 3-entry buffer, the
window at index 0 is clipped to 3 entries; the filter emits confidence
3/3 = 1, whereas dividing the winning count 3 by the configured window size 5
would give 3/5. -/
theorem majority_confidence_counterexample :
    ((applySlidingMajorityFilter 5 cexBuf3).get? 0).map SmoothedLabel.confidence =
      some 1 ∧
    (cexBuf3.map labelOfEntry).count "Open_Palm" = 3 ∧
    ((3 : ℚ) / 5 ≠ 1) := by
  refine ⟨by with_unfolding_all decide, by with_unfolding_all decide, by norm_num⟩

/-- C5 amended: the confidence emitted at every index equals the winning
label's occurrence count within the examined window divided by the clipped
window length `end - start + 1` (which equals the configured window size only
away from the boundaries). -/
theorem majority_confidence_clipped (mws : Nat) (buffer : List BufferEntry) (i : Nat)
    (hi : i < buffer.length) :
    ∃ out, (applySlidingMajorityFilter mws buffer).get? i = some out ∧
      out.confidence =
        (((windowEntries mws buffer i).map labelOfEntry).count
            (out.label.getD "None") : ℚ) /
          ((windowEnd mws buffer.length i + 1 - windowStart mws i : Nat) : ℚ) := by
  obtain ⟨lstar, hres, hcnt⟩ := resolvedLabelAt_count mws buffer i hi
  refine ⟨majorityAt mws buffer i, applySlidingMajorityFilter_get? mws buffer i hi, ?_⟩
  have hlab : (majorityAt mws buffer i).label = normG (some lstar) := by
    show normG (resolvedLabelAt mws buffer i) = normG (some lstar)
    rw [hres]
  have hraw : (normG (some lstar)).getD "None" = lstar := by
    unfold normG
    by_cases h : lstar = "None"
    · subst h; rw [if_pos rfl]; rfl
    · rw [if_neg (by simpa using h)]; rfl
  rw [hlab, hraw]
  show ((majAccAt mws buffer i).maxCount : ℚ) /
      ((windowEnd mws buffer.length i + 1 - windowStart mws i : Nat) : ℚ) = _
  rw [← lookupCount_labelCountsAt mws buffer i lstar, hcnt]

/-- C5 witness: the amended statement evaluated on the concrete clipped
boundary window. -/
theorem majority_confidence_clipped_witness :
    ∃ out, (applySlidingMajorityFilter 5 cexBuf3).get? 0 = some out ∧
      out.confidence =
        (((windowEntries 5 cexBuf3 0).map labelOfEntry).count
            (out.label.getD "None") : ℚ) /
          ((windowEnd 5 cexBuf3.length 0 + 1 - windowStart 5 0 : Nat) : ℚ) :=
  majority_confidence_clipped 5 cexBuf3 0 (by decide)

/-- C6: with two or more tied labels, the filter resolves the tie to the
first-seen tied non-"None" label of maximal average confidence over its
occurrences within the window (List.argmax keeps the earliest maximiser), and
to the first-seen tied label when every tied label is the absence sentinel. -/
theorem majority_tiebreak_spec (mws : Nat) (buffer : List BufferEntry) (i : Nat)
    (hscore : ∀ e ∈ buffer, 0 ≤ scoreOfEntry e)
    (htie : 1 < (majAccAt mws buffer i).tieLabels.length) :
    ((majAccAt mws buffer i).tieLabels.filter (fun l => !(l == "None")) ≠ [] →
      resolvedLabelAt mws buffer i =
        ((majAccAt mws buffer i).tieLabels.filter (fun l => !(l == "None"))).argmax
          (fun l => avgOf (windowScoresFor mws buffer i l))) ∧
    ((majAccAt mws buffer i).tieLabels.filter (fun l => !(l == "None")) = [] →
      resolvedLabelAt mws buffer i = (majAccAt mws buffer i).tieLabels.head?) := by
  have hfun : (fun l => avgOf (lookupScores (labelScoresAt mws buffer i) l)) =
      fun l => avgOf (windowScoresFor mws buffer i l) := by
    funext l
    rw [lookupScores_labelScoresAt]
  have hnn : ∀ l, 0 ≤ avgOf (lookupScores (labelScoresAt mws buffer i) l) := by
    intro l
    rw [lookupScores_labelScoresAt]
    apply avgOf_nonneg
    intro x hx
    unfold windowScoresFor at hx
    obtain ⟨e, he, hex⟩ := List.mem_map.mp hx
    have hbuf : e ∈ buffer := windowEntries_subset mws buffer i e (List.mem_of_mem_filter he)
    exact hex ▸ hscore e hbuf
  have h := resolveTie_argmax (majAccAt mws buffer i).tieLabels
    (labelScoresAt mws buffer i) (majAccAt mws buffer i).majorityLabel htie hnn
  constructor
  · intro hne
    have h1 := h.1 hne
    rw [hfun] at h1
    exact h1
  · intro hfil
    exact h.2 hfil

/-- A 2-entry buffer whose window at index 0 ties Open_Palm (avg 9/10) with
Closed_Fist (avg 1/2). -/
def tieBuf : List BufferEntry :=
  [⟨none, none, none, none, some ⟨"Open_Palm", 9 / 10⟩, 0⟩,
   ⟨none, none, none, none, some ⟨"Closed_Fist", 1 / 2⟩, 0⟩]

/-- C6 witness: the tie-break evaluated on a concrete tied window. -/
theorem majority_tiebreak_spec_witness :
    resolvedLabelAt 3 tieBuf 0 =
      ((majAccAt 3 tieBuf 0).tieLabels.filter (fun l => !(l == "None"))).argmax
        (fun l => avgOf (windowScoresFor 3 tieBuf 0 l)) :=
  (majority_tiebreak_spec 3 tieBuf 0 (by with_unfolding_all decide)
    (by with_unfolding_all decide)).1 (by with_unfolding_all decide)

/-! ## Lemmas about detection and the per-frame step -/

/-- The buffered detector only ever produces none, a swipe, or a click; never
a point event. -/
theorem detect_cases (mws : Nat) (mgs : Int) (buffer : List BufferEntry) :
    detectTemporalGesture mws mgs buffer = none ∨
    detectTemporalGesture mws mgs buffer = some TemporalGestureResult.swipe_left ∨
    detectTemporalGesture mws mgs buffer = some TemporalGestureResult.swipe_right ∨
    detectTemporalGesture mws mgs buffer = some TemporalGestureResult.click := by
  unfold detectTemporalGesture
  by_cases hb : buffer.length = 0
  · rw [if_pos hb]
    exact Or.inl rfl
  · rw [if_neg hb]
    simp only []
    split
    next r heq =>
      split at heq
      · split at heq
        next lastBlock =>
          split at heq
          next fp lp =>
            split_ifs at heq
            · injection heq with h2
              subst h2
              exact Or.inr (Or.inl rfl)
            · injection heq with h2
              subst h2
              exact Or.inr (Or.inr (Or.inl rfl))
          next => cases heq
        next => cases heq
      · cases heq
    next heq =>
      split_ifs
      · exact Or.inr (Or.inr (Or.inr rfl))
      · exact Or.inl rfl

/-- C1: whenever the cleaned block list ends with an Open_Palm block followed
by a Closed_Fist block (the swipe pattern matches structurally, with the
Closed_Fist block last), the detector's result is exactly determined by the
palm centers at the start index of the last block and at the buffer tail:
swipe_left when their x difference exceeds 0.1, swipe_right when it is below
-0.1, and no event otherwise - including when either palm center is null; and
whenever no event is detected on the post-append buffer, the per-frame step
leaves that buffer in place (uncleared). -/
theorem detect_swipe_spec (mws : Nat) (mgs : Int) (buffer : List BufferEntry)
    (lastBlock : Block)
    (hmatch : matchGestureSequence (cleanedBlocks mws mgs buffer)
      [some "Open_Palm", some "Closed_Fist"] = true)
    (hlast : (cleanedBlocks mws mgs buffer).getLast? = some lastBlock) :
    (detectTemporalGesture mws mgs buffer =
      (match (listGetI buffer lastBlock.start).bind BufferEntry.palmCenter,
          (listGetI buffer ((buffer.length : Int) - 1)).bind BufferEntry.palmCenter with
        | some fp, some lp =>
          if (1 : ℚ) / 10 < lp.x - fp.x then some TemporalGestureResult.swipe_left
          else if lp.x - fp.x < -((1 : ℚ) / 10) then some TemporalGestureResult.swipe_right
          else none
        | _, _ => none)) ∧
    (detectTemporalGesture mws mgs buffer = none →
      ∀ (s : TState) (f : GestureFrameData),
        s.majorityWindowSize = mws → s.maxGapSize = mgs →
        nextBuffer s (frameEntry s f) = buffer →
        (processTemporalGestureDetection s f).2.buffer = buffer) := by
  have hbne : ¬buffer.length = 0 := by
    intro hc
    have hb : buffer = [] := List.length_eq_zero.mp hc
    rw [hb] at hmatch
    have hcb : cleanedBlocks mws mgs ([] : List BufferEntry) = [] := rfl
    rw [hcb] at hmatch
    simp [matchGestureSequence] at hmatch
  have hclick : matchGestureSequence (cleanedBlocks mws mgs buffer)
      [some "Pointing_Up", some "Closed_Fist", some "Pointing_Up"] = false := by
    cases hcm : matchGestureSequence (cleanedBlocks mws mgs buffer)
        [some "Pointing_Up", some "Closed_Fist", some "Pointing_Up"] with
    | false => rfl
    | true =>
      have h1 := matchGestureSequence_last_norm (cleanedBlocks mws mgs buffer)
        [some "Open_Palm", some "Closed_Fist"] lastBlock (some "Closed_Fist")
        hmatch hlast rfl
      have h2 := matchGestureSequence_last_norm (cleanedBlocks mws mgs buffer)
        [some "Pointing_Up", some "Closed_Fist", some "Pointing_Up"] lastBlock
        (some "Pointing_Up") hcm hlast rfl
      rw [h1] at h2
      simp [normG] at h2
  constructor
  · simp only [detectTemporalGesture]
    rw [if_neg hbne, if_pos hmatch, hlast]
    simp only []
    cases hfp : (listGetI buffer lastBlock.start).bind BufferEntry.palmCenter with
    | none =>
      cases hlp : (listGetI buffer ((buffer.length : Int) - 1)).bind
          BufferEntry.palmCenter with
      | none => simp [hclick]
      | some lp => simp [hclick]
    | some fp =>
      cases hlp : (listGetI buffer ((buffer.length : Int) - 1)).bind
          BufferEntry.palmCenter with
      | none => simp [hclick]
      | some lp =>
        split
        next r heq => rw [heq]
        next heq =>
          rw [heq]
          simp [hclick]
  · intro hdet s f hmws hmgs hbuf
    simp only [processTemporalGestureDetection]
    rw [hmws, hmgs, hbuf, hdet]

/-- A 2-entry buffer whose cleaned blocks match Open_Palm then Closed_Fist
with zero palm displacement. -/
def c1buf : List BufferEntry :=
  [⟨none, some ⟨0, 0, none⟩, none, none, some ⟨"Open_Palm", 9 / 10⟩, 0⟩,
   ⟨none, some ⟨0, 0, none⟩, none, none, some ⟨"Closed_Fist", 8 / 10⟩, 0⟩]

/-- C1 witness: on a concrete structural match with deltaX = 0, the theorem
applies and the detector emits no event. -/
theorem detect_swipe_spec_witness :
    matchGestureSequence (cleanedBlocks 1 2 c1buf)
      [some "Open_Palm", some "Closed_Fist"] = true ∧
    detectTemporalGesture 1 2 c1buf = none := by
  refine ⟨by with_unfolding_all decide, ?_⟩
  have h := (detect_swipe_spec 1 2 c1buf ⟨some "Closed_Fist", 1, 1⟩
    (by with_unfolding_all decide) (by with_unfolding_all decide)).1
  rw [h]
  with_unfolding_all decide

/-- C2: when detection on the post-append buffer fires (necessarily a swipe
or a click), the step dispatches that event last and leaves the stored buffer
empty, so the next frame starts from length 0 before its append; when nothing
is detected - point events included, since the buffered detector never
returns point - the buffer is exactly the appended one, never cleared. -/
theorem process_buffer_clear_spec (s : TState) (f : GestureFrameData) :
    (∀ g, detectTemporalGesture s.majorityWindowSize s.maxGapSize
        (nextBuffer s (frameEntry s f)) = some g →
      (processTemporalGestureDetection s f).2.buffer = [] ∧
        (processTemporalGestureDetection s f).1.getLast? = some g) ∧
    (detectTemporalGesture s.majorityWindowSize s.maxGapSize
        (nextBuffer s (frameEntry s f)) = none →
      (processTemporalGestureDetection s f).2.buffer =
        nextBuffer s (frameEntry s f)) := by
  constructor
  · intro g hg
    have hknp : ¬g.kind = GestureKind.point := by
      rcases detect_cases s.majorityWindowSize s.maxGapSize
          (nextBuffer s (frameEntry s f)) with h | h | h | h <;> rw [h] at hg
      · cases hg
      all_goals
        injection hg with hgg
      all_goals
        subst hgg
      all_goals
        simp [TemporalGestureResult.kind]
    constructor
    · simp only [processTemporalGestureDetection]
      rw [hg]
      show (if g.kind = GestureKind.point then nextBuffer s (frameEntry s f) else []) = []
      rw [if_neg hknp]
    · simp only [processTemporalGestureDetection]
      rw [hg]
      exact List.getLast?_concat _
  · intro hdet
    simp only [processTemporalGestureDetection]
    rw [hdet]

def c2state : TState :=
  ⟨[⟨none, none, none, none, some ⟨"Pointing_Up", 1⟩, 0⟩,
    ⟨none, none, none, none, some ⟨"Closed_Fist", 1⟩, 0⟩],
   30, 3 / 10, 1, 2, none, none, none, none, none⟩

def c2frame : GestureFrameData := ⟨[], some ⟨"Pointing_Up", 1⟩, 0⟩

/-- C2 witness: a concrete frame completing Pointing_Up, Closed_Fist,
Pointing_Up fires a click and the very next state holds an empty buffer. -/
theorem process_buffer_clear_spec_witness :
    (processTemporalGestureDetection c2state c2frame).2.buffer = [] ∧
    (processTemporalGestureDetection c2state c2frame).1.getLast? =
      some TemporalGestureResult.click :=
  (process_buffer_clear_spec c2state c2frame).1 TemporalGestureResult.click
    (by with_unfolding_all decide)

/-! ## Buffer capacity (C3) -/

def c3state : TState :=
  ⟨[⟨none, none, none, none, none, 0⟩, ⟨none, none, none, none, none, 0⟩],
   2, 3 / 10, 5, 2, none, none, none, none, none⟩

/-- C3 counterexample: a state satisfying the invariant (length 2, capacity
2) ceases to satisfy it right after `updateTemporalGestureOptions` lowers
`bufferSize` to 1, because the update never trims the buffer. -/
theorem bufferSize_shrink_counterexample :
    c3state.buffer.length ≤ c3state.bufferSize ∧
    (updateTemporalGestureOptions { bufferSize := some 1 } c3state).bufferSize <
      (updateTemporalGestureOptions { bufferSize := some 1 } c3state).buffer.length := by
  with_unfolding_all decide

/-- C3 amended: the per-frame append-with-eviction step preserves
`length ≤ bufferSize` whenever it held before the step, but
`updateTemporalGestureOptions` leaves the buffer itself untouched, so a
runtime decrease of bufferSize below the current length breaks the
invariant. -/
theorem buffer_capacity_amended (s : TState) (f : GestureFrameData)
    (opts : TemporalGestureOptions) (h : s.buffer.length ≤ s.bufferSize) :
    (processTemporalGestureDetection s f).2.buffer.length ≤
      (processTemporalGestureDetection s f).2.bufferSize ∧
    (updateTemporalGestureOptions opts s).buffer = s.buffer := by
  constructor
  · have hnb : (nextBuffer s (frameEntry s f)).length ≤ s.bufferSize := by
      unfold nextBuffer
      by_cases hc : s.bufferSize < (s.buffer ++ [frameEntry s f]).length
      · rw [if_pos hc, List.length_tail]
        simp only [List.length_append, List.length_singleton] at hc ⊢
        omega
      · rw [if_neg hc]
        simp only [List.length_append, List.length_singleton] at hc ⊢
        omega
    simp only [processTemporalGestureDetection]
    cases hdet : detectTemporalGesture s.majorityWindowSize s.maxGapSize
        (nextBuffer s (frameEntry s f)) with
    | none =>
      exact hnb
    | some g =>
      show (if g.kind = GestureKind.point then nextBuffer s (frameEntry s f)
          else []).length ≤ s.bufferSize
      by_cases hk : g.kind = GestureKind.point
      · rw [if_pos hk]
        exact hnb
      · rw [if_neg hk]
        simp
  · rfl

/-- C3 witness: the amended statement evaluated on a concrete state. -/
theorem buffer_capacity_amended_witness :
    (processTemporalGestureDetection c3state ⟨[], none, 0⟩).2.buffer.length ≤
      (processTemporalGestureDetection c3state ⟨[], none, 0⟩).2.bufferSize ∧
    (updateTemporalGestureOptions {} c3state).buffer = c3state.buffer :=
  buffer_capacity_amended c3state ⟨[], none, 0⟩ {} (by decide)

/-! ## EMA null handling (C4) -/

def c4state : TState :=
  ⟨[], 30, 3 / 10, 5, 2, none, some ⟨1 / 2, 1 / 2, none⟩, none, none, none⟩

def c4frame : GestureFrameData := ⟨[], none, 0⟩

/-- C4 counterexample: with a stored smoothed palm center and a frame whose
extracted points are all null, the step stores null, discarding the previous
smoothed value instead of retaining it. -/
theorem ema_state_counterexample :
    c4state.smoothedPalmCenter = some ⟨1 / 2, 1 / 2, none⟩ ∧
    (processTemporalGestureDetection c4state c4frame).2.smoothedPalmCenter = none := by
  with_unfolding_all decide

/-- C4 amended: when the frame's extracted reference points are null the
smoother emits null and the stored previous smoothed values are likewise set
to null (not retained), so the next non-null frame restarts the EMA from the
raw current value (applyEMA with no previous returns the current point). -/
theorem ema_null_resets_state (s : TState) (f : GestureFrameData)
    (hw : (computeReferencePoints (f.landmarks.head?.getD [])).wrist = none)
    (hp : (computeReferencePoints (f.landmarks.head?.getD [])).palmCenter = none)
    (ht : (computeReferencePoints (f.landmarks.head?.getD [])).thumbTip = none)
    (hix : (computeReferencePoints (f.landmarks.head?.getD [])).indexTip = none) :
    ((processTemporalGestureDetection s f).2.smoothedWrist = none ∧
      (processTemporalGestureDetection s f).2.smoothedPalmCenter = none ∧
      (processTemporalGestureDetection s f).2.smoothedThumbTip = none ∧
      (processTemporalGestureDetection s f).2.smoothedIndexTip = none) ∧
    (∀ (a : ℚ) (c : Landmark), applyEMA a (some c) none = some c) := by
  have hw2 : (frameEntry s f).wrist = none := by
    show applyEMA s.emaAlpha
      (computeReferencePoints (f.landmarks.head?.getD [])).wrist s.smoothedWrist = none
    rw [hw]
    rfl
  have hp2 : (frameEntry s f).palmCenter = none := by
    show applyEMA s.emaAlpha
      (computeReferencePoints (f.landmarks.head?.getD [])).palmCenter
      s.smoothedPalmCenter = none
    rw [hp]
    rfl
  have ht2 : (frameEntry s f).thumbTip = none := by
    show applyEMA s.emaAlpha
      (computeReferencePoints (f.landmarks.head?.getD [])).thumbTip
      s.smoothedThumbTip = none
    rw [ht]
    rfl
  have hix2 : (frameEntry s f).indexTip = none := by
    show applyEMA s.emaAlpha
      (computeReferencePoints (f.landmarks.head?.getD [])).indexTip
      s.smoothedIndexTip = none
    rw [hix]
    rfl
  refine ⟨?_, fun a c => rfl⟩
  simp only [processTemporalGestureDetection]
  cases hdet : detectTemporalGesture s.majorityWindowSize s.maxGapSize
      (nextBuffer s (frameEntry s f)) with
  | none =>
    exact ⟨hw2, hp2, ht2, hix2⟩
  | some g =>
    exact ⟨hw2, hp2, ht2, hix2⟩

/-- C4 witness: the amended statement evaluated on the concrete null frame. -/
theorem ema_null_resets_state_witness :
    ((processTemporalGestureDetection c4state c4frame).2.smoothedWrist = none ∧
      (processTemporalGestureDetection c4state c4frame).2.smoothedPalmCenter = none ∧
      (processTemporalGestureDetection c4state c4frame).2.smoothedThumbTip = none ∧
      (processTemporalGestureDetection c4state c4frame).2.smoothedIndexTip = none) ∧
    (∀ (a : ℚ) (c : Landmark), applyEMA a (some c) none = some c) :=
  ema_null_resets_state c4state c4frame rfl rfl rfl rfl

/-! ## Palm center computation (C10) -/

/-- The accumulating fold of `computeReferencePoints` sums each coordinate
(with absent z read as 0). -/
theorem baseSum_eq (bases : List Landmark) :
    ∀ a b c : ℚ,
      bases.foldl (fun acc p => (acc.1 + p.x, acc.2.1 + p.y, acc.2.2 + p.z.getD 0))
        (a, b, c) =
      (a + (bases.map Landmark.x).sum, b + (bases.map Landmark.y).sum,
        c + (bases.map (fun q => q.z.getD 0)).sum) := by
  induction bases with
  | nil => intro a b c; simp
  | cons p rest ih =>
    intro a b c
    simp only [List.foldl_cons, List.map_cons, List.sum_cons]
    rw [ih]
    simp only [Prod.mk.injEq]
    refine ⟨by ring, by ring, by ring⟩

def c10lm : HandLandmarks :=
  [some ⟨0, 0, some 0⟩, none, none, none, none, some ⟨1, 1, some 0⟩, none, none, none,
   some ⟨1, 0, some 0⟩, none, none, none, some ⟨0, 1, some 0⟩, none, none, none,
   some ⟨2, 2, some 0⟩]

/-- C10 counterexample: all five base landmarks are present and each carries
z = 0, yet the emitted palm center has no z at all (the z sum 0 is falsy), so
palmCenter is not the coordinate-wise average of the present landmarks. -/
theorem palmCenter_z_counterexample :
    (∀ p ∈ palmBases c10lm, p.z = some 0) ∧
    (computeReferencePoints c10lm).palmCenter = some ⟨4 / 5, 4 / 5, none⟩ := by
  constructor
  · with_unfolding_all decide
  · with_unfolding_all decide

/-- C10 amended: a null wrist (landmark 0) forces a null palm center even if
the finger bases are present; with the wrist present, the palm center's x and
y are the averages of the present landmarks among indices 0, 5, 9, 13, 17,
and its z is the average of their `z or 0` values when that sum is nonzero
and absent otherwise. -/
theorem palmCenter_wrist_gated_average (landmarks : HandLandmarks) :
    (getPoint landmarks 0 = none → (computeReferencePoints landmarks).palmCenter = none) ∧
    (∀ w, getPoint landmarks 0 = some w →
      ∃ p, (computeReferencePoints landmarks).palmCenter = some p ∧
        p.x = ((palmBases landmarks).map Landmark.x).sum /
          ((palmBases landmarks).length : ℚ) ∧
        p.y = ((palmBases landmarks).map Landmark.y).sum /
          ((palmBases landmarks).length : ℚ) ∧
        p.z = (if ((palmBases landmarks).map (fun q => q.z.getD 0)).sum ≠ 0 then
            some (((palmBases landmarks).map (fun q => q.z.getD 0)).sum /
              ((palmBases landmarks).length : ℚ))
          else none)) := by
  constructor
  · intro h
    simp only [computeReferencePoints, h]
  · intro w hw
    have hmem : w ∈ palmBases landmarks := by
      unfold palmBases
      rw [hw]
      simp
    have hlen : 0 < (palmBases landmarks).length :=
      List.length_pos.mpr (List.ne_nil_of_mem hmem)
    have hfold := baseSum_eq (palmBases landmarks) 0 0 0
    refine ⟨⟨((palmBases landmarks).map Landmark.x).sum /
        ((palmBases landmarks).length : ℚ),
      ((palmBases landmarks).map Landmark.y).sum /
        ((palmBases landmarks).length : ℚ),
      if ((palmBases landmarks).map (fun q => q.z.getD 0)).sum ≠ 0 then
        some (((palmBases landmarks).map (fun q => q.z.getD 0)).sum /
          ((palmBases landmarks).length : ℚ))
      else none⟩, ?_, rfl, rfl, rfl⟩
    simp only [computeReferencePoints, hw]
    rw [if_pos hlen]
    rw [hfold]
    simp only [zero_add]

/-- C10 witness: the amended statement evaluated on the concrete landmark
list (wrist present, all five bases present). -/
theorem palmCenter_wrist_gated_average_witness :
    ∃ p, (computeReferencePoints c10lm).palmCenter = some p ∧
      p.x = ((palmBases c10lm).map Landmark.x).sum / ((palmBases c10lm).length : ℚ) ∧
      p.y = ((palmBases c10lm).map Landmark.y).sum / ((palmBases c10lm).length : ℚ) ∧
      p.z = (if ((palmBases c10lm).map (fun q => q.z.getD 0)).sum ≠ 0 then
          some (((palmBases c10lm).map (fun q => q.z.getD 0)).sum /
            ((palmBases c10lm).length : ℚ))
        else none) :=
  (palmCenter_wrist_gated_average c10lm).2 ⟨0, 0, some 0⟩ rfl

end GestureService
